import Mathlib

/-!
Verification of the binary MIDI codec of gsapi (src/gsapi/midiio.py).

The Lean definitions below are a shallow embedding of the Python source:
byte streams are lists of natural numbers (each a byte value), the Python
iterator-based readers become functions returning the parsed value together
with the unconsumed remainder of the list, and a raised exception becomes an
error value.  Every definition is translated from the function of the same
name in midiio.py; comments point to the lines being modelled.
-/

namespace MidiIO

/-- Errors a parse can raise.  The Python code signals them as exceptions:
StopIteration when the byte iterator is exhausted, AssertionError
("Bad byte value") from the running-status assert at midiio.py:128,
TypeError from evaluating range of a non-integer length when the status
nibble 0xF0 resolves to the sysex class, and KeyError from a failed
registry lookup. -/
inductive MidiErr where
  | stopIteration
  | badByteValue
  | typeError
  | keyError
deriving DecidableEq, Repr

/-- midiio.py:733 read_varlen, the while loop.  Each byte contributes its
low 7 bits; the loop continues while the high bit is set.  Exhaustion of
the iterator raises StopIteration, modelled as none. -/
def read_varlen_loop : List Nat → Nat → Option (Nat × List Nat)
  | [], _ => none
  | char :: rest, value =>
    if char &&& 0x80 ≠ 0 then
      read_varlen_loop rest ((value <<< 7) + (char &&& 0x7F))
    else
      some ((value <<< 7) + (char &&& 0x7F), rest)

/-- midiio.py:733-748 read_varlen: decode a variable-length quantity from
the front of the byte list, returning the value and the unconsumed rest. -/
def read_varlen (data : List Nat) : Option (Nat × List Nat) :=
  read_varlen_loop data 0

/-- midiio.py:751-769 write_varlen.  The Python code shifts `value` right
by 7 three times; each nested `if value:` test therefore sees the source
value shifted by 7, 14 and 21 bits.  Bits at position 28 and above are
silently discarded (there is no error path in the source). -/
def write_varlen (value : Nat) : List Nat :=
  if value >>> 7 ≠ 0 then
    if value >>> 14 ≠ 0 then
      if value >>> 21 ≠ 0 then
        [((value >>> 21) &&& 0x7F) ||| 0x80,
         ((value >>> 14) &&& 0x7F) ||| 0x80,
         ((value >>> 7) &&& 0x7F) ||| 0x80,
         value &&& 0x7F]
      else
        [((value >>> 14) &&& 0x7F) ||| 0x80,
         ((value >>> 7) &&& 0x7F) ||| 0x80,
         value &&& 0x7F]
    else
      [((value >>> 7) &&& 0x7F) ||| 0x80, value &&& 0x7F]
  else
    [value &&& 0x7F]

/-- The concrete channel-event classes of midiio.py (lines 420-519): the
subclasses of Event registered in EventRegistry.Events, other than the
sysex class which the decoder dispatches on separately. -/
inductive ChKind where
  | noteOff
  | noteOn
  | afterTouch
  | controlChange
  | programChange
  | channelAfterTouch
  | pitchWheel
deriving DecidableEq, Repr

/-- The class attribute statusmsg of each channel-event class. -/
def ChKind.statusmsg : ChKind → Nat
  | .noteOff => 0x80
  | .noteOn => 0x90
  | .afterTouch => 0xA0
  | .controlChange => 0xB0
  | .programChange => 0xC0
  | .channelAfterTouch => 0xD0
  | .pitchWheel => 0xE0

/-- The class attribute length (declared fixed payload size) of each
channel-event class. -/
def ChKind.length : ChKind → Nat
  | .noteOff => 2
  | .noteOn => 2
  | .afterTouch => 2
  | .controlChange => 2
  | .programChange => 1
  | .channelAfterTouch => 1
  | .pitchWheel => 2

/-- The concrete meta-event classes of midiio.py (lines 533-728) together
with UnknownMetaEvent. -/
inductive MetaKind where
  | sequenceNumber
  | text
  | copyright
  | trackName
  | instrumentName
  | lyrics
  | marker
  | cuePoint
  | programName
  | channelPrefix
  | port
  | trackLoop
  | endOfTrack
  | setTempo
  | smpteOffset
  | timeSignature
  | keySignature
  | sequencerSpecific
  | unknown
deriving DecidableEq, Repr

/-- EventRegistry.Events restricted to the channel-event classes: the map
from status high nibble to registered class.  (The registry additionally
holds the sysex class under 0xF0; the decoder code paths that hit that
entry are modelled explicitly in parse_channel_body.) -/
def eventsLookup (key : Nat) : Option ChKind :=
  if key = 0x80 then some .noteOff
  else if key = 0x90 then some .noteOn
  else if key = 0xA0 then some .afterTouch
  else if key = 0xB0 then some .controlChange
  else if key = 0xC0 then some .programChange
  else if key = 0xD0 then some .channelAfterTouch
  else if key = 0xE0 then some .pitchWheel
  else none

/-- EventRegistry.MetaEvents: the map from metacommand byte to registered
meta-event class. -/
def metaLookup (cmd : Nat) : Option MetaKind :=
  if cmd = 0x00 then some .sequenceNumber
  else if cmd = 0x01 then some .text
  else if cmd = 0x02 then some .copyright
  else if cmd = 0x03 then some .trackName
  else if cmd = 0x04 then some .instrumentName
  else if cmd = 0x05 then some .lyrics
  else if cmd = 0x06 then some .marker
  else if cmd = 0x07 then some .cuePoint
  else if cmd = 0x08 then some .programName
  else if cmd = 0x20 then some .channelPrefix
  else if cmd = 0x21 then some .port
  else if cmd = 0x2E then some .trackLoop
  else if cmd = 0x2F then some .endOfTrack
  else if cmd = 0x51 then some .setTempo
  else if cmd = 0x54 then some .smpteOffset
  else if cmd = 0x58 then some .timeSignature
  else if cmd = 0x59 then some .keySignature
  else if cmd = 0x7F then some .sequencerSpecific
  else none

/-- The class the decoder instantiates for a metacommand byte: the
registered class, or UnknownMetaEvent when the command is absent
(midiio.py:107-111). -/
def metaKindOf (cmd : Nat) : MetaKind :=
  (metaLookup cmd).getD .unknown

/-- An in-memory MIDI event as the codec sees it.  A channel event is an
instance of one of the ChKind classes and carries tick, channel and the
data byte list; a meta event is an instance of a MetaKind class and
carries its metacommand instance attribute (always set to the raw command
byte by the decoder, midiio.py:114) plus tick and data; a sysex event
carries tick and data.  (The Python sysex object also inherits a channel
attribute, always defaulted to 0 and never read or written by the codec,
so it is not modelled.) -/
inductive MidiEvent where
  | channel (kind : ChKind) (tick : Nat) (chan : Nat) (data : List Nat)
  | meta (kind : MetaKind) (metacommand : Nat) (tick : Nat) (data : List Nat)
  | sysex (tick : Nat) (data : List Nat)
deriving DecidableEq, Repr

/-- The list comprehension [ord(trackdata.next()) for x in range(n)]:
take exactly n bytes from the front of the stream; StopIteration (none)
if the stream runs out first. -/
def readN : Nat → List Nat → Option (List Nat × List Nat)
  | 0, d => some ([], d)
  | _ + 1, [] => none
  | n + 1, b :: d => (readN n d).map (fun p => (b :: p.1, p.2))

/-- The sysex while loop of midiio.py:117-122: collect bytes until a
0xF7 terminator, which is consumed and discarded; StopIteration (none)
if the stream ends before the terminator. -/
def readSysex : List Nat → Option (List Nat × List Nat)
  | [] => none
  | b :: d =>
    if b = 0xF7 then some ([], d)
    else (readSysex d).map (fun p => (b :: p.1, p.2))

/-- The meta branch of FileReader.parse_midi_event (midiio.py:105-114):
read the command byte, a varlen payload length, then exactly that many
payload bytes; instantiate the registered class or UnknownMetaEvent.  The
running status is left untouched. -/
def parse_meta_body (rs : Option Nat) (tick : Nat) (d : List Nat) :
    Except MidiErr (MidiEvent × Option Nat × List Nat) :=
  match d with
  | [] => .error .stopIteration
  | cmd :: d1 =>
    match read_varlen d1 with
    | none => .error .stopIteration
    | some (datalen, d2) =>
      match readN datalen d2 with
      | none => .error .stopIteration
      | some (bytes, d3) => .ok (.meta (metaKindOf cmd) cmd tick bytes, rs, d3)

/-- The sysex branch of FileReader.parse_midi_event (midiio.py:116-123). -/
def parse_sysex_body (rs : Option Nat) (tick : Nat) (d : List Nat) :
    Except MidiErr (MidiEvent × Option Nat × List Nat) :=
  match readSysex d with
  | none => .error .stopIteration
  | some (bytes, d1) => .ok (.sysex tick bytes, rs, d1)

/-- The general-message branch of FileReader.parse_midi_event
(midiio.py:125-141).  key = stsmsg & 0xF0 is looked up in
EventRegistry.Events.  A hit on 0xF0 resolves to the sysex class, whose
length attribute is the string varlen, so range(cls.length) raises
TypeError.  A hit on a channel class consumes stsmsg as the status byte,
stores it as the running status and reads cls.length data bytes.  A miss
means stsmsg is really the first data byte of an event reusing the
running status: the assert at line 128 raises AssertionError when no
running status is set; otherwise the stored status byte supplies kind and
channel (a lookup miss on its nibble would raise KeyError, and a 0xF0
nibble would again raise TypeError via cls.length - 1), stsmsg becomes
data[0] and only cls.length - 1 further bytes are consumed. -/
def parse_channel_body (rs : Option Nat) (tick stsmsg : Nat) (d : List Nat) :
    Except MidiErr (MidiEvent × Option Nat × List Nat) :=
  if stsmsg &&& 0xF0 = 0xF0 then .error .typeError
  else
    match eventsLookup (stsmsg &&& 0xF0) with
    | some cls =>
      match readN cls.length d with
      | none => .error .stopIteration
      | some (bytes, d1) =>
        .ok (.channel cls tick (stsmsg &&& 0x0F) bytes, some stsmsg, d1)
    | none =>
      match rs with
      | none => .error .badByteValue
      | some rsb =>
        if rsb &&& 0xF0 = 0xF0 then .error .typeError
        else
          match eventsLookup (rsb &&& 0xF0) with
          | none => .error .keyError
          | some cls =>
            match readN (cls.length - 1) d with
            | none => .error .stopIteration
            | some (bytes, d1) =>
              .ok (.channel cls tick (rsb &&& 0x0F) (stsmsg :: bytes), rs, d1)

/-- FileReader.parse_midi_event (midiio.py:99-142): read the varlen
delta-time, then the status byte, and dispatch exactly as the source does:
MetaEvent.is_event tests stsmsg == 0xFF, SysexEvent.is_event tests
stsmsg == 0xF0, every other byte goes to the general-message branch.
The returned triple is the parsed event, the running status after the
call, and the unconsumed bytes. -/
def parse_midi_event (rs : Option Nat) (data : List Nat) :
    Except MidiErr (MidiEvent × Option Nat × List Nat) :=
  match read_varlen data with
  | none => .error .stopIteration
  | some (tick, d0) =>
    match d0 with
    | [] => .error .stopIteration
    | stsmsg :: d1 =>
      if stsmsg = 0xFF then parse_meta_body rs tick d1
      else if stsmsg = 0xF0 then parse_sysex_body rs tick d1
      else parse_channel_body rs tick stsmsg d1

/-- The while loop of FileReader.parse_track (midiio.py:88-97): parse
events one after another, appending each to the track, until
StopIteration ends the track; any other exception escapes and aborts the
parse.  The fuel argument only bounds the recursion; parse_track always
supplies more fuel than the loop can consume, since every iteration
consumes at least one byte. -/
def parse_track_loop : Nat → Option Nat → List Nat → List MidiEvent →
    Except MidiErr (List MidiEvent)
  | 0, _, _, acc => .ok acc
  | fuel + 1, rs, data, acc =>
    match parse_midi_event rs data with
    | .ok (event, rs1, rest) => parse_track_loop fuel rs1 rest (acc ++ [event])
    | .error .stopIteration => .ok acc
    | .error e => .error e

/-- FileReader.parse_track on the already-read track payload bytes: the
running status starts unset and the loop runs until the data is
exhausted.  (The MTrk header parsing that obtains those bytes is file
framing outside the event codec.) -/
def parse_track (data : List Nat) : Except MidiErr (List MidiEvent) :=
  parse_track_loop (data.length + 1) none data []

/-- FileWriter.encode_midi_event (midiio.py:170-193).  The running status
the writer keeps is the last channel event written; only its statusmsg
and channel fields are ever compared, so the state is modelled as that
pair.  A meta event emits 0xFF, its metacommand instance attribute, the
varlen payload length and the payload; a sysex event emits 0xF0, the
payload and the 0xF7 terminator; a channel event emits its status byte
only when the running status differs from its (statusmsg, channel) pair. -/
def encode_midi_event (rs : Option (Nat × Nat)) (event : MidiEvent) :
    List Nat × Option (Nat × Nat) :=
  match event with
  | .meta _ metacommand tick data =>
    (write_varlen tick ++ 0xFF :: metacommand :: (write_varlen data.length ++ data), rs)
  | .sysex tick data =>
    (write_varlen tick ++ 0xF0 :: (data ++ [0xF7]), rs)
  | .channel kind tick chan data =>
    if rs = some (kind.statusmsg, chan) then
      (write_varlen tick ++ data, rs)
    else
      (write_varlen tick ++ (kind.statusmsg ||| chan) :: data, some (kind.statusmsg, chan))

/-- The buffer accumulation of FileWriter.write_track (midiio.py:159-165):
concatenate each event's encoding while threading the running status. -/
def encodeEvents : Option (Nat × Nat) → List MidiEvent → List Nat × Option (Nat × Nat)
  | rs, [] => ([], rs)
  | rs, e :: es =>
    let head := encode_midi_event rs e
    let tail := encodeEvents head.2 es
    (head.1 ++ tail.1, tail.2)

/-- The event-stream bytes FileWriter.write_track buffers for a track
(before the MTrk header is prepended): running status starts unset. -/
def write_track_events (events : List MidiEvent) : List Nat :=
  (encodeEvents none events).1

/-- The validity condition the round-trip claim itself states for a track:
channel events carry exactly their class's declared number of data bytes,
all below 0x80, and sysex payloads do not contain the 0xF7 terminator. -/
def claimValidEvent : MidiEvent → Bool
  | .channel kind _ _ data =>
    data.length == kind.length && data.all (fun b => b < 0x80)
  | .meta _ _ _ _ => true
  | .sysex _ data => data.all (fun b => b ≠ 0xF7)

/-- The validity condition under which the codec round-trip actually
holds on the source: the claimed conditions plus the constraints the code
imposes silently — ticks below 2^28 (write_varlen discards higher bits),
channels below 16 (the status byte ors the channel into the low nibble),
meta payload lengths below 2^28, meta command and kind consistent with
the registry, and every emitted byte an actual byte (below 256, since
chr rejects larger values). -/
def validEvent : MidiEvent → Bool
  | .channel kind tick chan data =>
    tick < 268435456 && chan < 16 && data.length == kind.length &&
      data.all (fun b => b < 0x80)
  | .meta kind metacommand tick data =>
    tick < 268435456 && metacommand < 256 && kind == metaKindOf metacommand &&
      data.length < 268435456 && data.all (fun b => b < 256)
  | .sysex tick data =>
    tick < 268435456 && data.all (fun b => b < 256 && b ≠ 0xF7)

/-- The decoder's running status corresponding to an encoder running
status: the full status byte last written. -/
def statusByteOf : Option (Nat × Nat) → Option Nat
  | none => none
  | some (sm, chan) => some (sm ||| chan)

/-- An encoder running status that can only have arisen from writing a
channel event: the statusmsg is one of the registered channel classes and
the channel fits in the low nibble. -/
def rsGood : Option (Nat × Nat) → Prop
  | none => True
  | some (sm, chan) => chan < 16 ∧ ∃ kind : ChKind, kind.statusmsg = sm

/-- The tick state of a Track (midiio.py:237-256): its tick_relative flag
and the tick value of each event in order.  Ticks are integers because
Python subtraction in make_ticks_rel can go below zero on non-monotonic
absolute ticks. -/
structure TickTrack where
  tick_relative : Bool
  ticks : List Int
deriving DecidableEq, Repr

/-- The loop of Track.make_ticks_abs (midiio.py:245-248):
event.tick += running_tick; running_tick = event.tick. -/
def absLoop : Int → List Int → List Int
  | _, [] => []
  | running, t :: ts => (t + running) :: absLoop (t + running) ts

/-- The loop of Track.make_ticks_rel (midiio.py:253-256):
event.tick -= running_tick; running_tick += event.tick. -/
def relLoop : Int → List Int → List Int
  | _, [] => []
  | running, t :: ts => (t - running) :: relLoop (running + (t - running)) ts

/-- Track.make_ticks_abs (midiio.py:242-248): convert only when the track
is currently relative, clearing the flag. -/
def make_ticks_abs (tr : TickTrack) : TickTrack :=
  if tr.tick_relative then
    { tick_relative := false, ticks := absLoop 0 tr.ticks }
  else tr

/-- Track.make_ticks_rel (midiio.py:250-256): convert only when the track
is currently absolute, setting the flag. -/
def make_ticks_rel (tr : TickTrack) : TickTrack :=
  if ¬ tr.tick_relative then
    { tick_relative := true, ticks := relLoop 0 tr.ticks }
  else tr

/-- AbstractEvent.__init__ (midiio.py:312-318): when the class declares an
integer length, the default payload is that many zero bytes. -/
def default_data (len : Nat) : List Nat := List.replicate len 0

/-- ChannelAfterTouchEvent.get_value (midiio.py:499-500): returns
self.data[1]; an out-of-range index raises IndexError, modelled as none. -/
def ChannelAfterTouch_get_value (data : List Nat) : Option Nat :=
  data.get? 1

/-- ChannelAfterTouchEvent.set_value (midiio.py:496-497): assigns
self.data[1] = val; an out-of-range index raises IndexError, modelled as
none. -/
def ChannelAfterTouch_set_value (data : List Nat) (val : Nat) : Option (List Nat) :=
  if 1 < data.length then some (data.set 1 val) else none

-- Arithmetic readings of the bit operations used by the codec.

lemma and_127_eq (n : Nat) : n &&& 127 = n % 128 := by
  have h := Nat.and_pow_two_sub_one_eq_mod n 7
  norm_num at h
  exact h

lemma or_128_eq (b : Nat) (hb : b < 128) : b ||| 128 = b + 128 := by
  have h : ∀ x < 128, x ||| 128 = x + 128 := by decide
  exact h b hb

lemma shiftRight_7 (n : Nat) : n >>> 7 = n / 128 := by
  rw [Nat.shiftRight_eq_div_pow]

lemma shiftRight_14 (n : Nat) : n >>> 14 = n / 16384 := by
  rw [Nat.shiftRight_eq_div_pow]

lemma shiftRight_21 (n : Nat) : n >>> 21 = n / 2097152 := by
  rw [Nat.shiftRight_eq_div_pow]

lemma shiftLeft_7 (n : Nat) : n <<< 7 = n * 128 := by
  rw [Nat.shiftLeft_eq]

lemma enc_byte_eq (x : Nat) : (x &&& 127) ||| 128 = x % 128 + 128 := by
  rw [and_127_eq]
  exact or_128_eq _ (Nat.mod_lt _ (by norm_num))

lemma read_loop_cont (b : Nat) (hb : b < 128) (rest : List Nat) (acc : Nat) :
    read_varlen_loop ((b + 128) :: rest) acc = read_varlen_loop rest (acc * 128 + b) := by
  have h1 : ∀ x < 128, (x + 128) &&& 128 = 128 := by decide
  have h2 : ∀ x < 128, (x + 128) &&& 127 = x := by decide
  simp only [read_varlen_loop, h1 b hb, h2 b hb, shiftLeft_7]
  norm_num

lemma read_loop_last (b : Nat) (hb : b < 128) (rest : List Nat) (acc : Nat) :
    read_varlen_loop (b :: rest) acc = some (acc * 128 + b, rest) := by
  have h1 : ∀ x < 128, x &&& 128 = 0 := by decide
  have h2 : ∀ x < 128, x &&& 127 = x := by decide
  simp only [read_varlen_loop, h1 b hb, h2 b hb, shiftLeft_7]
  norm_num

/-- Decoding the bytes written for any value v recovers v modulo 2^28: the
encoder keeps at most four 7-bit groups.  The decoder consumes exactly the
encoder's bytes and leaves the rest of the stream untouched. -/
lemma read_write_varlen_mod (v : Nat) (rest : List Nat) :
    read_varlen (write_varlen v ++ rest) = some (v % 268435456, rest) := by
  unfold write_varlen read_varlen
  by_cases h1 : v >>> 7 ≠ 0
  · by_cases h2 : v >>> 14 ≠ 0
    · by_cases h3 : v >>> 21 ≠ 0
      · rw [if_pos h1, if_pos h2, if_pos h3]
        simp only [List.cons_append, List.nil_append]
        rw [enc_byte_eq, enc_byte_eq, enc_byte_eq, and_127_eq,
            shiftRight_7, shiftRight_14, shiftRight_21,
            read_loop_cont _ (Nat.mod_lt _ (by norm_num)),
            read_loop_cont _ (Nat.mod_lt _ (by norm_num)),
            read_loop_cont _ (Nat.mod_lt _ (by norm_num)),
            read_loop_last _ (Nat.mod_lt _ (by norm_num))]
        congr 2
        omega
      · rw [if_pos h1, if_pos h2, if_neg h3]
        simp only [List.cons_append, List.nil_append]
        rw [shiftRight_21] at h3
        rw [enc_byte_eq, enc_byte_eq, and_127_eq, shiftRight_7, shiftRight_14,
            read_loop_cont _ (Nat.mod_lt _ (by norm_num)),
            read_loop_cont _ (Nat.mod_lt _ (by norm_num)),
            read_loop_last _ (Nat.mod_lt _ (by norm_num))]
        congr 2
        omega
    · rw [if_pos h1, if_neg h2]
      simp only [List.cons_append, List.nil_append]
      rw [shiftRight_14] at h2
      rw [enc_byte_eq, and_127_eq, shiftRight_7,
          read_loop_cont _ (Nat.mod_lt _ (by norm_num)),
          read_loop_last _ (Nat.mod_lt _ (by norm_num))]
      congr 2
      omega
  · rw [if_neg h1]
    simp only [List.cons_append, List.nil_append]
    rw [shiftRight_7] at h1
    rw [and_127_eq, read_loop_last _ (Nat.mod_lt _ (by norm_num))]
    congr 2
    omega

lemma read_write_varlen (v : Nat) (hv : v < 268435456) (rest : List Nat) :
    read_varlen (write_varlen v ++ rest) = some (v, rest) := by
  rw [read_write_varlen_mod, Nat.mod_eq_of_lt hv]

lemma write_varlen_ne_nil (v : Nat) : write_varlen v ≠ [] := by
  unfold write_varlen
  split <;> try split
  all_goals simp
  split <;> simp

lemma write_varlen_length_le (v : Nat) : (write_varlen v).length ≤ 4 := by
  unfold write_varlen
  split <;> try split
  all_goals simp
  split <;> simp

lemma readN_append (xs rest : List Nat) :
    readN xs.length (xs ++ rest) = some (xs, rest) := by
  induction xs with
  | nil => rfl
  | cons b d ih => simp [readN, ih]

lemma readN_length {n : Nat} {d xs rest : List Nat}
    (h : readN n d = some (xs, rest)) : xs.length = n := by
  induction n generalizing d xs rest with
  | zero =>
    simp only [readN, Option.some.injEq, Prod.mk.injEq] at h
    rw [← h.1]
    rfl
  | succ m ih =>
    match d with
    | [] => simp [readN] at h
    | b :: d1 =>
      simp only [readN, Option.map_eq_some'] at h
      obtain ⟨p, hp, heq⟩ := h
      injection heq with e1 e2
      rw [← e1, List.length_cons]
      have hp2 : readN m d1 = some (p.1, p.2) := by rw [hp]
      rw [ih hp2]

lemma readSysex_append (xs rest : List Nat) (h : ∀ b ∈ xs, b ≠ 0xF7) :
    readSysex (xs ++ 0xF7 :: rest) = some (xs, rest) := by
  induction xs with
  | nil => rfl
  | cons b d ih =>
    have hb : b ≠ 0xF7 := h b (List.mem_cons_self b d)
    have ih2 := ih (fun x hx => h x (List.mem_cons_of_mem b hx))
    simp only [List.cons_append, readSysex, if_neg hb, List.append_eq, ih2]
    rfl

/-- Facts about a freshly built status byte, per channel class and any
channel below 16: it is neither the meta nor the sysex marker, its high
nibble recovers the class and is registered, and its low nibble recovers
the channel. -/
lemma status_byte_facts (kind : ChKind) (chan : Nat) (h : chan < 16) :
    kind.statusmsg ||| chan ≠ 0xFF ∧ kind.statusmsg ||| chan ≠ 0xF0 ∧
    (kind.statusmsg ||| chan) &&& 0xF0 = kind.statusmsg ∧
    (kind.statusmsg ||| chan) &&& 0x0F = chan ∧
    kind.statusmsg ≠ 0xF0 ∧ eventsLookup kind.statusmsg = some kind ∧
    1 ≤ kind.length := by
  have hball : ∀ k : ChKind, ∀ c < 16,
      k.statusmsg ||| c ≠ 0xFF ∧ k.statusmsg ||| c ≠ 0xF0 ∧
      (k.statusmsg ||| c) &&& 0xF0 = k.statusmsg ∧
      (k.statusmsg ||| c) &&& 0x0F = c ∧
      k.statusmsg ≠ 0xF0 ∧ eventsLookup k.statusmsg = some k ∧
      1 ≤ k.length := by
    intro k
    cases k <;> decide
  exact hball kind chan h

/-- Facts about a data byte (below 0x80) standing in status position: it
matches neither marker, and its high nibble misses the registry. -/
lemma data_byte_facts (b : Nat) (hb : b < 128) :
    b ≠ 0xFF ∧ b ≠ 0xF0 ∧ b &&& 0xF0 ≠ 0xF0 ∧ eventsLookup (b &&& 0xF0) = none := by
  have hball : ∀ x < 128,
      x ≠ 0xFF ∧ x ≠ 0xF0 ∧ x &&& 0xF0 ≠ 0xF0 ∧ eventsLookup (x &&& 0xF0) = none := by
    decide
  exact hball b hb

/-- One-event round trip: parsing the bytes the encoder emits for a valid
event, with the decoder running status that corresponds to the encoder
running status, recovers the event, updates the decoder status to the
encoder's new status, and consumes exactly the emitted bytes. -/
lemma parse_encode_event (e : MidiEvent) (rsE : Option (Nat × Nat))
    (hv : validEvent e = true) (hg : rsGood rsE) (rest : List Nat) :
    parse_midi_event (statusByteOf rsE) ((encode_midi_event rsE e).1 ++ rest) =
      .ok (e, statusByteOf (encode_midi_event rsE e).2, rest) ∧
    rsGood (encode_midi_event rsE e).2 := by
  cases e with
  | meta kind metacommand tick data =>
    simp only [validEvent, Bool.and_eq_true, decide_eq_true_eq, beq_iff_eq,
      List.all_eq_true] at hv
    obtain ⟨⟨⟨⟨ht, _⟩, hkind⟩, hlen⟩, _⟩ := hv
    refine ⟨?_, hg⟩
    simp only [encode_midi_event, List.append_assoc, List.cons_append]
    unfold parse_midi_event
    rw [read_write_varlen tick ht]
    simp [parse_meta_body, read_write_varlen data.length hlen, readN_append,
      ← hkind]
  | sysex tick data =>
    simp only [validEvent, Bool.and_eq_true, decide_eq_true_eq,
      List.all_eq_true] at hv
    obtain ⟨ht, hbytes⟩ := hv
    refine ⟨?_, hg⟩
    simp only [encode_midi_event, List.append_assoc, List.cons_append,
      List.singleton_append]
    unfold parse_midi_event
    rw [read_write_varlen tick ht]
    simp [parse_sysex_body,
      readSysex_append data rest (fun b hb => ((hbytes b hb).2))]
  | channel kind tick chan data =>
    simp only [validEvent, Bool.and_eq_true, decide_eq_true_eq, beq_iff_eq,
      List.all_eq_true] at hv
    obtain ⟨⟨⟨ht, hch⟩, hlen⟩, hbytes⟩ := hv
    obtain ⟨hne1, hne2, hhigh, hlow, hne3, hlook, hpos⟩ :=
      status_byte_facts kind chan hch
    by_cases hrs : rsE = some (kind.statusmsg, chan)
    · -- running status applies: the status byte is omitted
      subst hrs
      cases data with
      | nil => simp at hlen; omega
      | cons b0 drest =>
        obtain ⟨hb1, hb2, hb3, hb4⟩ :=
          data_byte_facts b0 (hbytes b0 (List.mem_cons_self b0 drest))
        have hdl : drest.length = kind.length - 1 := by
          simp at hlen; omega
        have henc : encode_midi_event (some (kind.statusmsg, chan))
            (MidiEvent.channel kind tick chan (b0 :: drest)) =
            (write_varlen tick ++ b0 :: drest, some (kind.statusmsg, chan)) := by
          simp [encode_midi_event]
        rw [henc]
        refine ⟨?_, hg⟩
        have hrw := read_write_varlen tick ht (b0 :: (drest ++ rest))
        unfold parse_midi_event
        simp only [statusByteOf, List.append_assoc, List.cons_append]
        rw [hrw]
        simp [parse_channel_body, hb1, hb2, hb3, hb4, hne3, hhigh, hlook,
          hlow, ← hdl, readN_append]
    · -- the full status byte is emitted and becomes the running status
      have henc : encode_midi_event rsE
          (MidiEvent.channel kind tick chan data) =
          (write_varlen tick ++ (kind.statusmsg ||| chan) :: data,
            some (kind.statusmsg, chan)) := by
        simp [encode_midi_event, hrs]
      rw [henc]
      refine ⟨?_, hch, kind, rfl⟩
      have hrw := read_write_varlen tick ht ((kind.statusmsg ||| chan) :: (data ++ rest))
      unfold parse_midi_event
      simp only [statusByteOf, List.append_assoc, List.cons_append]
      rw [hrw]
      simp [parse_channel_body, hne1, hne2, hne3, hhigh, hlook, hlow,
        ← hlen, readN_append]

/-- Every event's encoding starts with its (nonempty) varlen tick, so it
contributes at least one byte. -/
lemma encode_event_length_pos (rs : Option (Nat × Nat)) (e : MidiEvent) :
    1 ≤ (encode_midi_event rs e).1.length := by
  have hw : ∀ v : Nat, 1 ≤ (write_varlen v).length := by
    intro v
    cases h : write_varlen v with
    | nil => exact absurd h (write_varlen_ne_nil v)
    | cons a l => simp
  cases e with
  | meta kind mc tick d =>
    simp only [encode_midi_event, List.length_append, List.length_cons]
    have := hw tick
    omega
  | sysex tick d =>
    simp only [encode_midi_event, List.length_append, List.length_cons]
    have := hw tick
    omega
  | channel kind tick chan d =>
    simp only [encode_midi_event]
    split <;> simp only [List.length_append, List.length_cons] <;>
      have := hw tick <;> omega

/-- A track's encoding has at least as many bytes as it has events. -/
lemma encode_length_ge (events : List MidiEvent) (rs : Option (Nat × Nat)) :
    events.length ≤ (encodeEvents rs events).1.length := by
  induction events generalizing rs with
  | nil => simp [encodeEvents]
  | cons e es ih =>
    simp only [encodeEvents, List.length_append, List.length_cons]
    have h1 := encode_event_length_pos rs e
    have h2 := ih (encode_midi_event rs e).2
    omega

/-- On an exhausted stream the parse loop ends the track by StopIteration
and returns the events accumulated so far. -/
lemma parse_track_loop_nil (fuel : Nat) (rs : Option Nat) (acc : List MidiEvent) :
    parse_track_loop fuel rs [] acc = .ok acc := by
  cases fuel with
  | zero => rfl
  | succ n => simp [parse_track_loop, parse_midi_event, read_varlen, read_varlen_loop]

/-- Track-level round trip, generalized over the running statuses, the
accumulated events and any bytes following the encoded stream: parsing
walks exactly over the encoded bytes, appends the original events, and
continues on the trailing bytes with the corresponding running status. -/
lemma parse_encode_events (events : List MidiEvent) :
    ∀ (fuel : Nat) (rsE : Option (Nat × Nat)) (acc : List MidiEvent) (tail : List Nat),
    events.all validEvent = true → rsGood rsE →
    (parse_track_loop (fuel + events.length) (statusByteOf rsE)
        ((encodeEvents rsE events).1 ++ tail) acc =
      parse_track_loop fuel (statusByteOf (encodeEvents rsE events).2) tail
        (acc ++ events)) ∧
    rsGood (encodeEvents rsE events).2 := by
  induction events with
  | nil =>
    intro fuel rsE acc tail _ hg
    refine ⟨?_, hg⟩
    simp [encodeEvents]
  | cons e es ih =>
    intro fuel rsE acc tail hv hg
    simp only [List.all_cons, Bool.and_eq_true] at hv
    obtain ⟨hve, hves⟩ := hv
    obtain ⟨hpe, hge⟩ := parse_encode_event e rsE hve hg
      ((encodeEvents (encode_midi_event rsE e).2 es).1 ++ tail)
    obtain ⟨hloop, hg2⟩ := ih fuel (encode_midi_event rsE e).2 (acc ++ [e]) tail hves hge
    have step : parse_track_loop (fuel + (e :: es).length) (statusByteOf rsE)
        ((encodeEvents rsE (e :: es)).1 ++ tail) acc =
        parse_track_loop (fuel + es.length) (statusByteOf (encode_midi_event rsE e).2)
          ((encodeEvents (encode_midi_event rsE e).2 es).1 ++ tail) (acc ++ [e]) := by
      simp only [encodeEvents, List.length_cons, List.append_assoc]
      show parse_track_loop ((fuel + es.length) + 1) _ _ _ = _
      simp only [parse_track_loop, hpe]
    refine ⟨?_, hg2⟩
    rw [step, hloop]
    congr 1
    simp

/-- Decoding the bytes written for a valid track recovers the track. -/
lemma parse_write_track (T : List MidiEvent) (hv : T.all validEvent = true) :
    parse_track (write_track_events T) = .ok T := by
  unfold parse_track write_track_events
  have hlen := encode_length_ge T none
  obtain ⟨hloop, -⟩ := parse_encode_events T
    ((encodeEvents none T).1.length + 1 - T.length) none [] [] hv trivial
  simp only [List.append_nil, List.nil_append] at hloop
  rw [show (encodeEvents none T).1.length + 1 =
    ((encodeEvents none T).1.length + 1 - T.length) + T.length by omega]
  rw [show (none : Option Nat) = statusByteOf none from rfl, hloop,
    parse_track_loop_nil]

/-- The parse of the truncated fragment delta 0x00, status 0x90, single
data byte 0x3C ends in StopIteration regardless of running status: the
noteOn class wants two data bytes but only one remains. -/
lemma parse_truncated_fragment (rs : Option Nat) :
    parse_midi_event rs [0x00, 0x90, 0x3C] = .error .stopIteration := rfl

/-- Appending a mid-event-truncated fragment to a valid track's bytes
does not make the parse fail: the loop swallows the StopIteration, drops
the partial event and returns the events decoded so far. -/
lemma parse_write_track_truncated (T : List MidiEvent) (hv : T.all validEvent = true) :
    parse_track (write_track_events T ++ [0x00, 0x90, 0x3C]) = .ok T := by
  unfold parse_track write_track_events
  have hlen := encode_length_ge T none
  obtain ⟨hloop, -⟩ := parse_encode_events T
    (((encodeEvents none T).1 ++ [0x00, 0x90, 0x3C]).length + 1 - T.length)
    none [] [0x00, 0x90, 0x3C] hv trivial
  simp only [List.nil_append] at hloop
  have hfe : ((encodeEvents none T).1 ++ [0x00, 0x90, 0x3C]).length + 1 =
      (((encodeEvents none T).1 ++ [0x00, 0x90, 0x3C]).length + 1 - T.length) + T.length := by
    simp only [List.length_append, List.length_cons, List.length_nil]
    omega
  rw [hfe, show (none : Option Nat) = statusByteOf none from rfl, hloop]
  have hfuel : ∃ n, ((encodeEvents none T).1 ++ [0x00, 0x90, 0x3C]).length + 1 - T.length
      = n + 1 := by
    refine ⟨((encodeEvents none T).1 ++ [0x00, 0x90, 0x3C]).length - T.length, ?_⟩
    simp only [List.length_append, List.length_cons, List.length_nil]
    omega
  obtain ⟨n, hn⟩ := hfuel
  rw [hn]
  simp [parse_track_loop, parse_truncated_fragment]

lemma rel_abs_loop (ts : List Int) : ∀ r, relLoop r (absLoop r ts) = ts := by
  induction ts with
  | nil => intro r; rfl
  | cons t ts ih =>
    intro r
    simp only [absLoop, relLoop]
    have h1 : t + r - r = t := by ring
    rw [h1]
    have h2 : r + t = t + r := by ring
    rw [h2, ih]

lemma abs_rel_loop (ts : List Int) : ∀ r, absLoop r (relLoop r ts) = ts := by
  induction ts with
  | nil => intro r; rfl
  | cons t ts ih =>
    intro r
    simp only [relLoop, absLoop]
    have h1 : t - r + r = t := by ring
    rw [h1]
    have h2 : r + (t - r) = t := by ring
    rw [h2, ih]

lemma chkind_length_pos (k : ChKind) : 1 ≤ k.length := by
  cases k <;> decide

lemma parse_meta_body_ne_channel (rs : Option Nat) (tick : Nat) (d : List Nat)
    (k : ChKind) (tk c : Nat) (pay : List Nat) (rs2 : Option Nat) (rest : List Nat) :
    parse_meta_body rs tick d ≠ .ok (.channel k tk c pay, rs2, rest) := by
  unfold parse_meta_body
  split
  · simp
  · split
    · simp
    · split <;> simp

lemma parse_sysex_body_ne_channel (rs : Option Nat) (tick : Nat) (d : List Nat)
    (k : ChKind) (tk c : Nat) (pay : List Nat) (rs2 : Option Nat) (rest : List Nat) :
    parse_sysex_body rs tick d ≠ .ok (.channel k tk c pay, rs2, rest) := by
  unfold parse_sysex_body
  split <;> simp

/-- Both success paths of the general-message branch produce a payload of
exactly the class's declared length: cls.length bytes after an explicit
status byte, or the data byte plus cls.length - 1 further bytes under
running status. -/
lemma parse_channel_body_length {rs : Option Nat} {tick stsmsg : Nat} {d : List Nat}
    {k : ChKind} {tk c : Nat} {pay : List Nat} {rs2 : Option Nat} {rest : List Nat}
    (h : parse_channel_body rs tick stsmsg d = .ok (.channel k tk c pay, rs2, rest)) :
    pay.length = k.length := by
  unfold parse_channel_body at h
  by_cases h0 : stsmsg &&& 0xF0 = 0xF0
  · rw [if_pos h0] at h
    cases h
  · rw [if_neg h0] at h
    cases hl : eventsLookup (stsmsg &&& 0xF0) with
    | some cls =>
      rw [hl] at h
      simp only [] at h
      cases hr : readN cls.length d with
      | none => rw [hr] at h; cases h
      | some p =>
        obtain ⟨bytes, d1⟩ := p
        rw [hr] at h
        simp only [Except.ok.injEq, Prod.mk.injEq, MidiEvent.channel.injEq] at h
        obtain ⟨⟨hk, -, -, hpay⟩, -⟩ := h
        rw [← hpay, ← hk]
        exact readN_length hr
    | none =>
      rw [hl] at h
      simp only [] at h
      cases rs with
      | none => cases h
      | some rsb =>
        simp only [] at h
        by_cases h1 : rsb &&& 0xF0 = 0xF0
        · rw [if_pos h1] at h
          cases h
        · rw [if_neg h1] at h
          cases hl2 : eventsLookup (rsb &&& 0xF0) with
          | none => rw [hl2] at h; cases h
          | some cls =>
            rw [hl2] at h
            simp only [] at h
            cases hr : readN (cls.length - 1) d with
            | none => rw [hr] at h; cases h
            | some p =>
              obtain ⟨bytes, d1⟩ := p
              rw [hr] at h
              simp only [Except.ok.injEq, Prod.mk.injEq, MidiEvent.channel.injEq] at h
              obtain ⟨⟨hk, -, -, hpay⟩, -⟩ := h
              rw [← hpay, ← hk, List.length_cons, readN_length hr]
              have := chkind_length_pos cls
              omega

/-- Any channel event the decoder produces has a payload of exactly its
class's declared length. -/
lemma parse_event_channel_length {rs : Option Nat} {d : List Nat}
    {k : ChKind} {tk c : Nat} {pay : List Nat} {rs2 : Option Nat} {rest : List Nat}
    (h : parse_midi_event rs d = .ok (.channel k tk c pay, rs2, rest)) :
    pay.length = k.length := by
  unfold parse_midi_event at h
  split at h
  · cases h
  · split at h
    · cases h
    · split at h
      · exact absurd h (parse_meta_body_ne_channel _ _ _ _ _ _ _ _ _)
      · split at h
        · exact absurd h (parse_sysex_body_ne_channel _ _ _ _ _ _ _ _ _)
        · exact parse_channel_body_length h

lemma add128_and127 (x : Nat) (hx : x < 128) : (x + 128) &&& 127 = x := by
  have h : ∀ y < 128, (y + 128) &&& 127 = y := by decide
  exact h x hx

/-- For values below 2^28 the encoding is minimal: either it is the single
byte used for values below 128, or the low 7 bits of its first byte are
non-zero (no superfluous leading continuation group). -/
lemma write_varlen_minimal (v : Nat) (hv : v < 268435456) :
    ((write_varlen v).length = 1 ↔ v < 128) ∧
    ((write_varlen v).length = 1 ∨ (write_varlen v).headD 0 &&& 0x7F ≠ 0) := by
  unfold write_varlen
  by_cases h1 : v >>> 7 ≠ 0
  · rw [shiftRight_7] at h1
    by_cases h2 : v >>> 14 ≠ 0
    · rw [shiftRight_14] at h2
      by_cases h3 : v >>> 21 ≠ 0
      · rw [if_pos (by rw [shiftRight_7]; exact h1),
            if_pos (by rw [shiftRight_14]; exact h2), if_pos h3]
        rw [shiftRight_21] at h3
        refine ⟨iff_of_false (by simp) (by omega), Or.inr ?_⟩
        simp only [List.headD_cons]
        rw [enc_byte_eq, add128_and127 _ (Nat.mod_lt _ (by norm_num)), shiftRight_21]
        have hlt : v / 2097152 < 128 := by omega
        rw [Nat.mod_eq_of_lt hlt]
        omega
      · rw [if_pos (by rw [shiftRight_7]; exact h1),
            if_pos (by rw [shiftRight_14]; exact h2), if_neg h3]
        rw [shiftRight_21] at h3
        refine ⟨iff_of_false (by simp) (by omega), Or.inr ?_⟩
        simp only [List.headD_cons]
        rw [enc_byte_eq, add128_and127 _ (Nat.mod_lt _ (by norm_num)), shiftRight_14]
        have hlt : v / 16384 < 128 := by omega
        rw [Nat.mod_eq_of_lt hlt]
        omega
    · rw [if_pos (by rw [shiftRight_7]; exact h1), if_neg h2]
      rw [shiftRight_14] at h2
      refine ⟨iff_of_false (by simp) (by omega), Or.inr ?_⟩
      simp only [List.headD_cons]
      rw [enc_byte_eq, add128_and127 _ (Nat.mod_lt _ (by norm_num)), shiftRight_7]
      have hlt : v / 128 < 128 := by omega
      rw [Nat.mod_eq_of_lt hlt]
      omega
  · rw [if_neg h1]
    rw [shiftRight_7] at h1
    exact ⟨iff_of_true (by simp) (by omega), Or.inl (by simp)⟩

/-!
The claim theorems.  Each theorem settles one claim about midiio.py.
-/

/-- Claim C1, counterexample: the track consisting of a single note-on at
tick 2^28 satisfies every condition the claim places on a valid track
(payload length 2 with bytes below 0x80, no sysex), yet decoding its
encoding yields a note-on at tick 0: write_varlen silently drops bit 28,
so the round trip is not the identity on the claimed set of tracks. -/
theorem decode_encode_track_counterexample :
    claimValidEvent (.channel .noteOn (2 ^ 28) 0 [60, 100]) = true ∧
    parse_track (write_track_events [.channel .noteOn (2 ^ 28) 0 [60, 100]]) =
      .ok [.channel .noteOn 0 0 [60, 100]] ∧
    (MidiEvent.channel .noteOn 0 0 [60, 100]) ≠ (.channel .noteOn (2 ^ 28) 0 [60, 100]) :=
  ⟨by decide, rfl, by decide⟩

/-- Claim C1 (amended): for every track whose events are valid for the
code as written — channel events carry exactly their kind's declared
number of data bytes, all below 0x80; additionally every tick is below
2^28, channels are below 16, meta payload lengths are below 2^28, meta
kinds agree with the registry lookup of their command byte, all meta and
sysex data bytes are real bytes and sysex payloads avoid 0xF7 — decoding
the bytes produced by encoding the track yields a structurally equal
track: same events with equal tick, kind, channel and payload. -/
theorem decode_encode_track (T : List MidiEvent) (hv : T.all validEvent = true) :
    parse_track (write_track_events T) = .ok T :=
  parse_write_track T hv

/-- Claim C1, witness: a five-event track exercising running status, a
registered meta event, a sysex event and both payload lengths. -/
theorem decode_encode_track_witness :
    ([MidiEvent.channel .noteOn 0 0 [60, 100], .channel .noteOn 10 0 [62, 100],
      .meta .setTempo 0x51 3 [7, 161, 32], .sysex 5 [1, 2, 200],
      .channel .channelAfterTouch 7 3 [9]] : List MidiEvent).all validEvent = true ∧
    parse_track (write_track_events
        [MidiEvent.channel .noteOn 0 0 [60, 100], .channel .noteOn 10 0 [62, 100],
         .meta .setTempo 0x51 3 [7, 161, 32], .sysex 5 [1, 2, 200],
         .channel .channelAfterTouch 7 3 [9]]) =
      .ok [MidiEvent.channel .noteOn 0 0 [60, 100], .channel .noteOn 10 0 [62, 100],
           .meta .setTempo 0x51 3 [7, 161, 32], .sysex 5 [1, 2, 200],
           .channel .channelAfterTouch 7 3 [9]] :=
  ⟨by decide, decode_encode_track
    [MidiEvent.channel .noteOn 0 0 [60, 100], .channel .noteOn 10 0 [62, 100],
     .meta .setTempo 0x51 3 [7, 161, 32], .sysex 5 [1, 2, 200],
     .channel .channelAfterTouch 7 3 [9]] (by decide)⟩

/-- Claim C2: for every v below 2^28, decoding the encoding returns v and
consumes exactly the encoder's bytes (whatever follows them is returned
untouched), and the encoding is minimal: it is the single byte used for
v below 128 exactly when its length is 1, and otherwise the low 7 bits of
its first byte are non-zero. -/
theorem varlen_roundtrip_minimal (v : Nat) (hv : v < 2 ^ 28) :
    (∀ rest : List Nat, read_varlen (write_varlen v ++ rest) = some (v, rest)) ∧
    ((write_varlen v).length = 1 ↔ v < 128) ∧
    ((write_varlen v).length = 1 ∨ (write_varlen v).headD 0 &&& 0x7F ≠ 0) := by
  have hv2 : v < 268435456 := by norm_num at hv; exact hv
  exact ⟨fun rest => read_write_varlen v hv2 rest, write_varlen_minimal v hv2⟩

/-- Claim C2, witness: the round trip and minimality at v = 300. -/
theorem varlen_roundtrip_minimal_witness :
    read_varlen (write_varlen 300 ++ [7]) = some (300, [7]) ∧
    ((write_varlen 300).length = 1 ↔ 300 < 128) ∧
    ((write_varlen 300).length = 1 ∨ (write_varlen 300).headD 0 &&& 0x7F ≠ 0) := by
  obtain ⟨h1, h2, h3⟩ := varlen_roundtrip_minimal 300 (by norm_num)
  exact ⟨h1 [7], h2, h3⟩

/-- Claim C3, counterexample: a track whose declared byte length is 5 but
whose stream ends after the 3 bytes delta 0x00, status 0x90, data 0x3C is
exhausted in the middle of the note-on event, yet parse_track returns an
ordinary (here empty) track instead of failing: the StopIteration from
the exhausted iterator is caught and treated as end of track. -/
theorem truncated_track_counterexample :
    parse_track [0x00, 0x90, 0x3C] = .ok [] := rfl

/-- Claim C3 (amended): exhausting a track mid-event does not fail the
parse: the events completed before the exhaustion are returned as the
track and the partial event is silently dropped. -/
theorem truncated_track_returns_partial (T : List MidiEvent)
    (hv : T.all validEvent = true) :
    parse_track (write_track_events T ++ [0x00, 0x90, 0x3C]) = .ok T :=
  parse_write_track_truncated T hv

/-- Claim C3, witness: one complete note-on followed by the truncated
fragment parses to just the note-on. -/
theorem truncated_track_returns_partial_witness :
    parse_track (write_track_events [MidiEvent.channel .noteOn 0 0 [60, 100]]
        ++ [0x00, 0x90, 0x3C]) = .ok [MidiEvent.channel .noteOn 0 0 [60, 100]] :=
  truncated_track_returns_partial [MidiEvent.channel .noteOn 0 0 [60, 100]] (by decide)

/-- Claim C4: encoding two consecutive valid channel events of identical
kind and channel emits the status byte for the first and omits it for the
second — the emitted stream is exactly varlen t1, status byte, payload 1,
varlen t2, payload 2 — and decoding that stream reconstructs both events
with the same kind and channel. -/
theorem running_status_compression (k : ChKind) (chan t1 t2 : Nat) (d1 d2 : List Nat)
    (h1 : validEvent (.channel k t1 chan d1) = true)
    (h2 : validEvent (.channel k t2 chan d2) = true) :
    write_track_events [.channel k t1 chan d1, .channel k t2 chan d2] =
      write_varlen t1 ++ (k.statusmsg ||| chan) :: (d1 ++ (write_varlen t2 ++ d2)) ∧
    parse_track (write_track_events [.channel k t1 chan d1, .channel k t2 chan d2]) =
      .ok [.channel k t1 chan d1, .channel k t2 chan d2] := by
  constructor
  · simp [write_track_events, encodeEvents, encode_midi_event]
  · exact parse_write_track _ (by simp [h1, h2])

/-- Claim C4, witness: two note-ons on channel 2. -/
theorem running_status_compression_witness :
    write_track_events [MidiEvent.channel .noteOn 0 2 [60, 100],
        .channel .noteOn 10 2 [62, 101]] =
      write_varlen 0 ++ (ChKind.noteOn.statusmsg ||| 2) ::
        ([60, 100] ++ (write_varlen 10 ++ [62, 101])) ∧
    parse_track (write_track_events [MidiEvent.channel .noteOn 0 2 [60, 100],
        .channel .noteOn 10 2 [62, 101]]) =
      .ok [MidiEvent.channel .noteOn 0 2 [60, 100], .channel .noteOn 10 2 [62, 101]] :=
  running_status_compression .noteOn 2 0 10 [60, 100] [62, 101] (by decide) (by decide)

/-- Claim C5, counterexample: at v = 2^28 the encoder does not fail at
all — write_varlen has no error path — and instead emits the four bytes
0x80 0x80 0x80 0x00, which decode to 0: the overflowing bits are silently
discarded rather than rejected with any error. -/
theorem varlen_overflow_counterexample :
    write_varlen (2 ^ 28) = [0x80, 0x80, 0x80, 0x00] ∧
    read_varlen (write_varlen (2 ^ 28)) = some (0, []) :=
  ⟨rfl, rfl⟩

/-- Claim C5 (amended): encoding never fails for any non-negative v: the
result is always at most 4 bytes, these decode to v modulo 2^28 (exactly
v when v is below 2^28), and for v at or above 2^28 the excess bits are
silently dropped instead of raising any out-of-range error. -/
theorem varlen_encode_truncates (v : Nat) :
    (write_varlen v).length ≤ 4 ∧
    ∀ rest : List Nat, read_varlen (write_varlen v ++ rest) = some (v % 2 ^ 28, rest) := by
  refine ⟨write_varlen_length_le v, fun rest => ?_⟩
  have h := read_write_varlen_mod v rest
  norm_num
  exact h

/-- Claim C6, counterexample: a note-on whose payload is the single byte
60 — one byte short of the declared length 2 — encodes without any error
to delta 5, status 0x90, the one payload byte, emitted verbatim: the
encoder performs no payload-length validation at all. -/
theorem payload_mismatch_counterexample :
    ([60] : List Nat).length ≠ ChKind.noteOn.length ∧
    write_track_events [MidiEvent.channel .noteOn 5 0 [60]] = [5, 0x90, 60] :=
  ⟨by decide, rfl⟩

/-- Claim C6 (amended): encoding a channel event whose payload length
differs from its kind's declared length succeeds and emits the payload
bytes verbatim — neither truncated nor padded, but also with no
InvalidEventPayload error, which the code does not implement. -/
theorem encode_emits_payload_verbatim (k : ChKind) (tick chan : Nat) (d : List Nat)
    (hlen : d.length ≠ k.length) :
    write_track_events [.channel k tick chan d] =
      write_varlen tick ++ (k.statusmsg ||| chan) :: d := by
  simp [write_track_events, encodeEvents, encode_midi_event]

/-- Claim C6, witness: the undersized payload [60] against noteOn. -/
theorem encode_emits_payload_verbatim_witness :
    ([60] : List Nat).length ≠ ChKind.noteOn.length ∧
    write_track_events [MidiEvent.channel .noteOn 7 1 [60]] =
      write_varlen 7 ++ (ChKind.noteOn.statusmsg ||| 1) :: [60] :=
  ⟨by decide, encode_emits_payload_verbatim .noteOn 7 1 [60] (by decide)⟩

/-- Claim C7: a meta event whose command byte misses the registry decodes
to an UnknownMetaEvent retaining the raw command byte and the full
payload, and re-encoding that event reproduces exactly the original
bytes: 0xFF, the command byte, the varlen payload length, the payload. -/
theorem unknown_meta_roundtrip (metacommand tick : Nat) (d rest : List Nat)
    (rsD : Option Nat) (rsE : Option (Nat × Nat))
    (hlook : metaLookup metacommand = none)
    (ht : tick < 2 ^ 28) (hlen : d.length < 2 ^ 28) :
    parse_midi_event rsD
        (write_varlen tick ++ 0xFF :: metacommand :: (write_varlen d.length ++ (d ++ rest))) =
      .ok (.meta .unknown metacommand tick d, rsD, rest) ∧
    (encode_midi_event rsE (.meta .unknown metacommand tick d)).1 =
      write_varlen tick ++ 0xFF :: metacommand :: (write_varlen d.length ++ d) := by
  have ht2 : tick < 268435456 := by norm_num at ht; exact ht
  have hlen2 : d.length < 268435456 := by norm_num at hlen; exact hlen
  constructor
  · unfold parse_midi_event
    rw [read_write_varlen tick ht2]
    simp [parse_meta_body, read_write_varlen d.length hlen2, readN_append,
      metaKindOf, hlook]
  · simp [encode_midi_event]

/-- Claim C7, witness: command byte 0x7C with payload [1, 2, 3]. -/
theorem unknown_meta_roundtrip_witness :
    parse_midi_event none
        (write_varlen 0 ++ 0xFF :: 0x7C ::
          (write_varlen ([1, 2, 3] : List Nat).length ++ ([1, 2, 3] ++ []))) =
      .ok (.meta .unknown 0x7C 0 [1, 2, 3], none, []) ∧
    (encode_midi_event none (.meta .unknown 0x7C 0 [1, 2, 3])).1 =
      write_varlen 0 ++ 0xFF :: 0x7C ::
        (write_varlen ([1, 2, 3] : List Nat).length ++ [1, 2, 3]) :=
  unknown_meta_roundtrip 0x7C 0 [1, 2, 3] [] none none (by decide) (by norm_num)
    (by norm_num)

/-- Claim C8: a byte below 0x80 in status position fails the parse with
the running-status assert (AssertionError, the code's MissingRunningStatus
signal) when no running status is set; with a stored running status the
event's kind and channel are derived from that status byte's nibbles and
the byte itself becomes the first data byte — only kind.length - 1
further bytes are consumed. -/
theorem running_status_data_byte (b tick : Nat) (hb : b < 0x80) (ht : tick < 2 ^ 28) :
    (∀ tail : List Nat,
      parse_midi_event none (write_varlen tick ++ b :: tail) = .error .badByteValue) ∧
    ∀ (k : ChKind) (chan : Nat) (d2 rest : List Nat), chan < 16 →
      d2.length = k.length - 1 →
      parse_midi_event (some (k.statusmsg ||| chan)) (write_varlen tick ++ b :: (d2 ++ rest)) =
        .ok (.channel k tick chan (b :: d2), some (k.statusmsg ||| chan), rest) := by
  have ht2 : tick < 268435456 := by norm_num at ht; exact ht
  have hb2 : b < 128 := hb
  obtain ⟨hb1, hbb2, hb3, hb4⟩ := data_byte_facts b hb2
  constructor
  · intro tail
    unfold parse_midi_event
    rw [read_write_varlen tick ht2]
    simp [parse_channel_body, hb1, hbb2, hb3, hb4]
  · intro k chan d2 rest hch hd2
    obtain ⟨hne1, hne2, hhigh, hlow, hne3, hlook, hpos⟩ := status_byte_facts k chan hch
    unfold parse_midi_event
    rw [read_write_varlen tick ht2]
    simp [parse_channel_body, hb1, hbb2, hb3, hb4, hne3, hhigh, hlook, hlow,
      ← hd2, readN_append]

/-- Claim C8, witness: byte 60 with no running status errors; with
running status noteOn on channel 2 it becomes the pitch of the decoded
note-on. -/
theorem running_status_data_byte_witness :
    parse_midi_event none (write_varlen 0 ++ 60 :: [100]) = .error .badByteValue ∧
    parse_midi_event (some (ChKind.noteOn.statusmsg ||| 2))
        (write_varlen 0 ++ 60 :: ([100] ++ [])) =
      .ok (.channel .noteOn 0 2 [60, 100], some (ChKind.noteOn.statusmsg ||| 2), []) := by
  obtain ⟨h1, h2⟩ := running_status_data_byte 60 0 (by decide) (by norm_num)
  exact ⟨h1 [100], h2 .noteOn 2 [100] [] (by decide) (by decide)⟩

/-- Claim C9: converting a relative track to absolute ticks and back
restores every event's original tick value, and each conversion applied
twice is a no-op the second time: the tick_relative flag guards the
mutation, making the conversion an idempotent toggle rather than a
doubling. -/
theorem tick_conversion_roundtrip (tr : TickTrack) :
    (tr.tick_relative = true → make_ticks_rel (make_ticks_abs tr) = tr) ∧
    (tr.tick_relative = false → make_ticks_abs (make_ticks_rel tr) = tr) ∧
    make_ticks_abs (make_ticks_abs tr) = make_ticks_abs tr ∧
    make_ticks_rel (make_ticks_rel tr) = make_ticks_rel tr := by
  obtain ⟨flag, ts⟩ := tr
  cases flag <;>
    simp [make_ticks_abs, make_ticks_rel, rel_abs_loop, abs_rel_loop]

/-- Claim C9, witness: the relative tick list [3, 4, 5]. -/
theorem tick_conversion_roundtrip_witness :
    make_ticks_rel (make_ticks_abs ⟨true, [3, 4, 5]⟩) = (⟨true, [3, 4, 5]⟩ : TickTrack) ∧
    make_ticks_abs (make_ticks_abs ⟨true, [3, 4, 5]⟩) = make_ticks_abs ⟨true, [3, 4, 5]⟩ :=
  ⟨(tick_conversion_roundtrip ⟨true, [3, 4, 5]⟩).1 rfl,
   (tick_conversion_roundtrip ⟨true, [3, 4, 5]⟩).2.2.1⟩

/-- Claim C10: the value accessor of ChannelAfterTouchEvent reads and
writes data[1] although the class declares payload length 1, so on the
default payload [0] both directions fail with an out-of-range index; the
same failure occurs on the payload of any decoded channel-after-touch
event, which always has exactly one byte. -/
theorem channel_aftertouch_value_index_error :
    ChannelAfterTouch_get_value (default_data ChKind.channelAfterTouch.length) = none ∧
    (∀ v, ChannelAfterTouch_set_value (default_data ChKind.channelAfterTouch.length) v = none) ∧
    ∀ (rs : Option Nat) (d : List Nat) (tk chan : Nat) (pay : List Nat)
      (rs2 : Option Nat) (rest : List Nat),
      parse_midi_event rs d = .ok (.channel .channelAfterTouch tk chan pay, rs2, rest) →
      ChannelAfterTouch_get_value pay = none ∧
      ∀ v, ChannelAfterTouch_set_value pay v = none := by
  refine ⟨rfl, fun v => rfl, ?_⟩
  intro rs d tk chan pay rs2 rest h
  have hlen : pay.length = 1 := parse_event_channel_length h
  constructor
  · unfold ChannelAfterTouch_get_value
    rw [List.get?_eq_none]
    omega
  · intro v
    unfold ChannelAfterTouch_set_value
    rw [if_neg]
    omega

/-- Claim C10, witness: the channel-after-touch event decoded from bytes
0x00 0xD0 0x40 has payload [64], and both value accessors fail on it. -/
theorem channel_aftertouch_value_index_error_witness :
    ChannelAfterTouch_get_value [0x40] = none ∧
    ∀ v, ChannelAfterTouch_set_value [0x40] v = none :=
  channel_aftertouch_value_index_error.2.2 none [0x00, 0xD0, 0x40] 0 0 [0x40]
    (some 0xD0) [] rfl


end MidiIO
